/-
Verification of the VoiceTech-for-All TTS API server (`app.py`) against its
natural-language specification.

The Python program is embedded shallowly:

* `IndianLanguageNormalizer.normalize` works character by character; it is
  embedded over `List Char` / `String`.  Python's `str.split()`,
  `str.isalnum`, `str.lower` and `c in ' .,!?;:'` are modelled by
  `pyIsSpace`, `pyIsAlnum`, `pyLower` and `keepChar`; the character
  classifications agree with Python on the ASCII range, which is where all
  concrete inputs used below live.
* The FastAPI handlers `synthesize`, `get_inference` and `get_audio` become
  pure functions from an explicit environment (model-loaded flag, wall-clock
  timestamp string, the NumPy random stream, a possible I/O failure of
  `sf.write`) and a request record to a result plus the list of files
  written.  Torch tensors are represented by their shapes, with torch's
  broadcasting checks modelled faithfully: every tensor's *contents* are
  random (`torch.randint`, randomly initialised weights, `np.random.randn`)
  and are discarded, and the only tensor facts the program's outputs could
  depend on are `mel_spec.cpu().numpy()[0].shape[0]` and whether the shapes
  are compatible at all.  They are not: `encoder_output + lang_emb` adds a
  `(1, 150, 512)` tensor to a `(1, 1, 256)` one, so the forward pass raises
  a `RuntimeError` on every call and the post-model code of both handlers
  is unreachable.
* Exceptions become an `Except` value.  Crucially, in both POST handlers the
  `raise HTTPException(status_code=400, ...)` statements sit inside the
  `try:` block, and `except Exception as e` catches `HTTPException` (a
  subclass of `Exception`) and re-raises `HTTPException(500, str(e))`; the
  embedding reproduces this, with `str` of a Starlette `HTTPException`
  rendered as `"{status_code}: {detail}"`.
-/
import Mathlib

set_option linter.unusedVariables false

namespace VoiceForAll

/-! ## Character-level model of the Python predicates used by `normalize` -/

/-- Python `str.split()` whitespace, ASCII fragment (`' '`, `'\t'`, `'\r'`,
`'\n'`); this is `Char.isWhitespace`. -/
def pyIsSpace (c : Char) : Bool :=
  c.isWhitespace

/-- Python `c.isalnum()`, ASCII fragment: letters and digits. -/
def pyIsAlnum (c : Char) : Bool :=
  c.isAlphanum

/-- Python `str.lower`, ASCII fragment: shift `A`-`Z` by 32. -/
def pyLower (c : Char) : Char :=
  if 65 ≤ c.toNat ∧ c.toNat ≤ 90 then Char.ofNat (c.toNat + 32) else c

/-- The filter of `IndianLanguageNormalizer.normalize`:
`c.isalnum() or c in ' .,!?;:'` (note the leading space in the literal). -/
def keepChar (c : Char) : Bool :=
  pyIsAlnum c || [' ', '.', ',', '!', '?', ';', ':'].contains c

/-! ## `' '.join(text.split())` -/

/-- Python `text.split()`: the maximal runs of non-whitespace characters. -/
def pySplit : List Char → List (List Char)
  | [] => []
  | c :: cs =>
    if pyIsSpace c then pySplit cs
    else
      match cs with
      | [] => [[c]]
      | d :: _ =>
        if pyIsSpace d then
          [c] :: pySplit cs
        else
          match pySplit cs with
          | [] => [[c]]
          | w :: ws => (c :: w) :: ws

/-- Python `' '.join(words)`. -/
def joinWithSpace : List (List Char) → List Char
  | [] => []
  | [w] => w
  | w :: ws => w ++ ' ' :: joinWithSpace ws

/-- `' '.join(text.split())`, the first line of `normalize`. -/
def pyCollapse (s : List Char) : List Char :=
  joinWithSpace (pySplit s)

/-! ## `IndianLanguageNormalizer` -/

/-- `IndianLanguageNormalizer.normalize` on the character list:
collapse via split/join, filter kept characters, lower-case. -/
def normalizeList (s : List Char) : List Char :=
  ((pyCollapse s).filter keepChar).map pyLower

/-- `IndianLanguageNormalizer.normalize text language`.  The `language`
argument is accepted and ignored, exactly as in the source. -/
def normalize (text : String) (language : String := "hi") : String :=
  ⟨normalizeList text.data⟩

/-- `IndianLanguageNormalizer.LANGUAGES`, in source (insertion) order. -/
def LANGUAGES : List (String × String) :=
  [("hi", "Hindi"), ("bn", "Bengali"), ("mr", "Marathi"), ("kn", "Kannada"),
   ("te", "Telugu"), ("bh", "Bhojpuri"), ("cc", "Chhattisgarhi"),
   ("mg", "Magahi"), ("mt", "Maithili"), ("ta", "Tamil"), ("ml", "Malayalam")]

/-! ## The spec's reading of the normalizer (claim C7)

The spec describes `normalize` as "collapsing whitespace runs to single
spaces, stripping characters other than alphanumerics and the punctuation
set, and lower-casing".  Read literally, collapsing a run yields a single
space wherever the run stood, leading and trailing runs included; the
following definitions formalise that reading so it can be compared with the
source's split/join behaviour. -/

/-- Modelled from the spec: "whitespace runs collapsed to single spaces" —
each maximal whitespace run is replaced by one space, wherever it stands. -/
def collapseRuns : List Char → List Char
  | [] => []
  | c :: cs =>
    if pyIsSpace c then
      match cs with
      | [] => [' ']
      | d :: _ => if pyIsSpace d then collapseRuns cs else ' ' :: collapseRuns cs
    else c :: collapseRuns cs

/-- Removal of leading and trailing whitespace. -/
def trimWs (s : List Char) : List Char :=
  ((s.dropWhile pyIsSpace).reverse.dropWhile pyIsSpace).reverse

/-- Whether a string starts with a whitespace character. -/
def headIsSpace : List Char → Bool
  | [] => false
  | c :: _ => pyIsSpace c

/-- Whether a string ends with a whitespace character. -/
def lastIsSpace : List Char → Bool
  | [] => false
  | [c] => pyIsSpace c
  | _ :: cs => lastIsSpace cs

/-- Modelled from the spec, claim C7 as written: collapse whitespace runs
to single spaces, strip non-kept characters, lower-case. -/
def normalizeClaim7 (text : String) : String :=
  ⟨((collapseRuns text.data).filter keepChar).map pyLower⟩

/-- Modelled from the spec, claim C7 amended: as `normalizeClaim7` but with
leading and trailing whitespace removed after collapsing, which is what
`' '.join(text.split())` actually does. -/
def normalizeClaim7Trimmed (text : String) : String :=
  ⟨((trimWs (collapseRuns text.data)).filter keepChar).map pyLower⟩

/-! ## Shape semantics of the torch modules

Tensor contents are random and discarded, so tensors are embedded as shapes
`(batch, seq, feat)`; the observable behaviour of the model call is whether
the shapes broadcast (they do not, see `ttsForward`) and, were they to, the
frame count `mel_spec.cpu().numpy()[0].shape[0]`. -/

/-- Shape of `nn.Embedding(vocab, dim)` applied to a `(batch, seq)` input. -/
def embeddingShape (dim : Nat) (x : Nat × Nat) : Nat × Nat × Nat :=
  (x.1, x.2, dim)

/-- Shape of a `batch_first` `nn.LSTM(_, hidden, bidirectional := bidir)`
output on a `(batch, seq, feat)` input. -/
def lstmShape (hidden : Nat) (bidir : Bool) (x : Nat × Nat × Nat) :
    Nat × Nat × Nat :=
  (x.1, x.2.1, if bidir then hidden * 2 else hidden)

/-- Shape of `nn.Linear(_, out)` on a `(batch, seq, feat)` input. -/
def linearShape (out : Nat) (x : Nat × Nat × Nat) : Nat × Nat × Nat :=
  (x.1, x.2.1, out)

/-- Constructor arguments of `MultilingualTTS` (defaults from the source). -/
structure TTSConfig where
  vocab_size : Nat
  num_languages : Nat := 11
  num_accents : Nat := 5
  num_styles : Nat := 3
  embedding_dim : Nat := 256
  hidden_dim : Nat := 512
  mel_bins : Nat := 80
deriving DecidableEq

/-- `MultilingualTTSEncoder.forward`: embedding, 2-layer bidirectional LSTM,
linear down to `hidden_dim`. -/
def encoderForwardShape (cfg : TTSConfig) (x : Nat × Nat) : Nat × Nat × Nat :=
  linearShape cfg.hidden_dim
    (lstmShape cfg.hidden_dim true (embeddingShape cfg.embedding_dim x))

/-- `AccentStyleTransferModule.forward`: concatenation with the broadcast
accent and style embeddings, then the two-linear `fusion` back to
`hidden_dim`.  Shape-wise this is the final `nn.Linear(hidden, hidden)`. -/
def transferForwardShape (cfg : TTSConfig) (x : Nat × Nat × Nat) :
    Nat × Nat × Nat :=
  linearShape cfg.hidden_dim x

/-- `MultilingualTTSDecoder.forward`: unidirectional LSTM, linear to
`mel_bins`. -/
def decoderForwardShape (cfg : TTSConfig) (x : Nat × Nat × Nat) :
    Nat × Nat × Nat :=
  linearShape cfg.mel_bins (lstmShape cfg.hidden_dim false x)

/-- Exceptions that can be raised inside the handlers' `try:` blocks:
a (fastapi) `HTTPException`, or any other exception with its message. -/
inductive Exc where
  | http (status : Nat) (detail : String)
  | other (msg : String)
deriving DecidableEq

/-- Python `str(e)`.  Starlette renders an `HTTPException` as
`"{status_code}: {detail}"`; other exceptions render their message. -/
def strOfExc : Exc → String
  | .http status detail => toString status ++ ": " ++ detail
  | .other msg => msg

/-- PyTorch broadcasting of one dimension pair: the sizes must be equal or
one of them must be 1. -/
def broadcastDim (a b : Nat) : Option Nat :=
  if a = b then some a else if a = 1 then some b else if b = 1 then some a else none

/-- PyTorch broadcasting of two 3-D shapes, dimension by dimension. -/
def broadcastShape3 (x y : Nat × Nat × Nat) : Option (Nat × Nat × Nat) :=
  match broadcastDim x.1 y.1, broadcastDim x.2.1 y.2.1, broadcastDim x.2.2 y.2.2 with
  | some d0, some d1, some d2 => some (d0, d1, d2)
  | _, _, _ => none

/-- `MultilingualTTS.forward`: encoder, then
`encoder_output + lang_emb`, then transfer module and decoder.
`lang_emb = language_embedding(language_id).unsqueeze(1)` has shape
`(1, 1, embedding_dim)` while `encoder_output` has shape
`(batch, seq, hidden_dim)`; when the trailing dimensions do not broadcast
(they are 512 and 256 here, neither equal nor 1 — the only dimension pair
of these two shapes that can fail), torch raises a `RuntimeError`, so the
forward pass is fallible. -/
def ttsForward (cfg : TTSConfig) (x : Nat × Nat) :
    Except Exc (Nat × Nat × Nat) :=
  let encOut := encoderForwardShape cfg x
  let langEmb := (1, 1, cfg.embedding_dim)
  match broadcastShape3 encOut langEmb with
  | none =>
    .error (.other ("The size of tensor a (" ++ toString encOut.2.2 ++
      ") must match the size of tensor b (" ++ toString langEmb.2.2 ++
      ") at non-singleton dimension 2"))
  | some s => .ok (decoderForwardShape cfg (transferForwardShape cfg s))

/-- The model built by `startup_event`: `MultilingualTTS(vocab_size=500)`. -/
def theModelConfig : TTSConfig :=
  { vocab_size := 500 }

/-! ## The request handlers -/

/-- The pydantic `TTSRequest` (defaults from the source; pydantic's `int`
fields are unbounded Python integers). -/
structure TTSRequest where
  text : String
  language : String := "hi"
  accent_id : Int := 0
  style_id : Int := 0
  speaker_id : Option Int := none
deriving DecidableEq

/-- The pydantic `TTSResponse`.  `duration` is a Python float holding
`len(audio) / 22050`, an exact small rational; it is modelled in `ℚ`. -/
structure TTSResponse where
  status : String
  message : String
  audio_url : Option String := none
  duration : Option ℚ := none
  language : String
  accent_id : Int
  style_id : Int
deriving DecidableEq

/-- A file written by `sf.write` under `outputs/`. -/
structure Artifact where
  filename : String
  samples : List ℚ
  samplerate : Nat
deriving DecidableEq

/-- How an endpoint call terminates: a JSON response body (here the
`TTSResponse`), or an `HTTPException` escaping to FastAPI with the given
status code and detail. -/
inductive HandlerResult where
  | ok (resp : TTSResponse)
  | httpError (status : Nat) (detail : String)
deriving DecidableEq

/-- The ambient state a request executes against: the module-level
`model_loaded` flag, the wall clock already rendered through
`datetime.now().strftime("%Y%m%d_%H%M%S")`, the NumPy random stream
(`np.random.randn(n)` reads `noise 0, …, noise (n-1)`), and whether
`sf.write` raises (carrying that exception's message). -/
structure Env where
  model_loaded : Bool
  timestamp : String
  noise : Nat → ℚ
  writeFail : Option String

/-- `np.random.randn(n)` drawn from the environment's stream. -/
def randn (env : Env) (n : Nat) : List ℚ :=
  (List.range n).map env.noise

/-- The `try:` block of `synthesize` (app.py lines 241-286), line by line;
`raise HTTPException` becomes `.error (.http ..)`. -/
def synthesizeBody (env : Env) (req : TTSRequest) :
    Except Exc (TTSResponse × Artifact) :=
  -- Validate inputs
  if (LANGUAGES.map Prod.fst).contains req.language = false then
    .error (.http 400 ("Language " ++ req.language ++ " not supported"))
  else if req.accent_id < 0 ∨ 5 ≤ req.accent_id then
    .error (.http 400 "accent_id must be 0-4")
  else if req.style_id < 0 ∨ 3 ≤ req.style_id then
    .error (.http 400 "style_id must be 0-2")
  else
    -- Normalize text (computed, never consumed downstream)
    let normalized_text := normalize req.text req.language
    -- Create dummy input for demo
    let batch_size := 1
    let seq_len := 150
    let text_ids_shape := (batch_size, seq_len)
    let language_id := (LANGUAGES.map Prod.fst).indexOf req.language
    -- mel_spec = model(text_ids, language_id, accent_id, style_id);
    -- the forward pass raises a RuntimeError whenever the language
    -- embedding does not broadcast onto the encoder output, which is the
    -- case for the shipped model (512 versus 256)
    match ttsForward theModelConfig text_ids_shape with
    | .error e => .error e
    | .ok mel_shape =>
      -- audio_file = output_dir / f"tts_{timestamp}.wav"
      let audio_file := "tts_" ++ env.timestamp ++ ".wav"
      -- audio = np.random.randn(mel_np.shape[0] * 256), mel_np = mel_spec[0]
      let mel_np_rows := mel_shape.2.1
      let audio := randn env (mel_np_rows * 256)
      -- sf.write(str(audio_file), audio, 22050)
      match env.writeFail with
      | some m => .error (.other m)
      | none =>
        let duration : ℚ := (audio.length : ℚ) / 22050
        .ok ({ status := "success"
               message := "Speech synthesized successfully"
               audio_url := some ("/audio/" ++ audio_file)
               duration := some duration
               language := req.language
               accent_id := req.accent_id
               style_id := req.style_id },
             { filename := audio_file, samples := audio, samplerate := 22050 })

/-- The `try:` block of `get_inference` (app.py lines 308-355), kept as its
own definition because the source duplicates the code rather than sharing
it. -/
def getInferenceBody (env : Env) (req : TTSRequest) :
    Except Exc (TTSResponse × Artifact) :=
  -- Validate inputs
  if (LANGUAGES.map Prod.fst).contains req.language = false then
    .error (.http 400 ("Language " ++ req.language ++ " not supported"))
  else if req.accent_id < 0 ∨ 5 ≤ req.accent_id then
    .error (.http 400 "accent_id must be 0-4")
  else if req.style_id < 0 ∨ 3 ≤ req.style_id then
    .error (.http 400 "style_id must be 0-2")
  else
    -- Normalize text (computed, never consumed downstream)
    let normalized_text := normalize req.text req.language
    -- Create input tensors
    let batch_size := 1
    let seq_len := 150
    let text_ids_shape := (batch_size, seq_len)
    let language_id := (LANGUAGES.map Prod.fst).indexOf req.language
    -- mel_spec = model(text_ids, language_id, accent_id, style_id);
    -- the forward pass raises a RuntimeError whenever the language
    -- embedding does not broadcast onto the encoder output, which is the
    -- case for the shipped model (512 versus 256)
    match ttsForward theModelConfig text_ids_shape with
    | .error e => .error e
    | .ok mel_shape =>
      -- audio_file = output_dir / f"inference_{timestamp}.wav"
      let audio_file := "inference_" ++ env.timestamp ++ ".wav"
      -- audio = np.random.randn(mel_np.shape[0] * 256), mel_np = mel_spec[0]
      let mel_np_rows := mel_shape.2.1
      let audio := randn env (mel_np_rows * 256)
      -- sf.write(str(audio_file), audio, 22050)
      match env.writeFail with
      | some m => .error (.other m)
      | none =>
        let duration : ℚ := (audio.length : ℚ) / 22050
        .ok ({ status := "success"
               message := "Inference completed successfully"
               audio_url := some ("/audio/" ++ audio_file)
               duration := some duration
               language := req.language
               accent_id := req.accent_id
               style_id := req.style_id },
             { filename := audio_file, samples := audio, samplerate := 22050 })

/-- Wrap a try-block outcome the way both endpoints do: a raised exception
(of any kind, the 400-validation `HTTPException`s included) is caught by
`except Exception as e` and re-raised as `HTTPException(500, str(e))`. -/
def wrapTry : Except Exc (TTSResponse × Artifact) → HandlerResult × List Artifact
  | .ok (resp, art) => (.ok resp, [art])
  | .error e => (.httpError 500 (strOfExc e), [])

/-- `POST /synthesize`.  Returns the handler outcome plus files written;
the `model_loaded` check precedes the `try:` block, so its 503 escapes
uncaught. -/
def synthesizeRun (env : Env) (req : TTSRequest) : HandlerResult × List Artifact :=
  if env.model_loaded = false then
    (.httpError 503 "Model not loaded", [])
  else
    wrapTry (synthesizeBody env req)

/-- `POST /Get_Inference`. -/
def getInferenceRun (env : Env) (req : TTSRequest) : HandlerResult × List Artifact :=
  if env.model_loaded = false then
    (.httpError 503 "Model not loaded", [])
  else
    wrapTry (getInferenceBody env req)

/-- Outcome of `GET /audio/{filename}`: a `FileResponse` streaming the file
with a media type, or an `HTTPException`. -/
inductive AudioResult where
  | fileResponse (a : Artifact) (mediaType : String)
  | httpError (status : Nat) (detail : String)
deriving DecidableEq

/-- `GET /audio/{filename}` against the files `fs` present under
`outputs/`. -/
def getAudioRun (fs : List Artifact) (filename : String) : AudioResult :=
  match fs.find? (fun a => a.filename == filename) with
  | none => .httpError 404 "Audio file not found"
  | some a => .fileResponse a "audio/wav"

/-! ## Concrete environments and requests used by witnesses -/

/-- A loaded-model environment with a fixed clock and a zero noise stream. -/
def envReady : Env :=
  { model_loaded := true
    timestamp := "20250101_120000"
    noise := fun _ => 0
    writeFail := none }

/-- The environment before `startup_event` has run. -/
def envNotLoaded : Env :=
  { model_loaded := false
    timestamp := "20250101_120000"
    noise := fun _ => 0
    writeFail := none }

/-- The spec's invalid-language example request. -/
def reqBadLanguage : TTSRequest :=
  { text := "Hello", language := "xx", accent_id := 0, style_id := 0 }

/-- The spec's out-of-range accent example request. -/
def reqBadAccent : TTSRequest :=
  { text := "Hello", language := "hi", accent_id := 7, style_id := 0 }

/-- An out-of-range style request. -/
def reqBadStyle : TTSRequest :=
  { text := "Hello", language := "hi", accent_id := 0, style_id := 5 }

/-- A valid request. -/
def reqValid : TTSRequest :=
  { text := "Hello world", language := "hi", accent_id := 0, style_id := 0 }

/-- The spec's own valid example request (C9). -/
def reqHindi : TTSRequest :=
  { text := "नमस्ते दुनिया", language := "hi", accent_id := 0, style_id := 0 }

/-- Another valid request, used by the C6 witness. -/
def reqTamil : TTSRequest :=
  { text := "Hi", language := "ta", accent_id := 1, style_id := 2 }

/-- A one-entry `outputs/` directory used by the C8 witness. -/
def artSample : Artifact :=
  { filename := "tts_20250101_120000.wav", samples := [], samplerate := 22050 }

example : normalize "a @ b" = "a  b" := by decide
example : normalize (normalize "a @ b") = "a b" := by decide
example : normalize "  Hello,   WORLD! " = "hello, world!" := by decide

example :
    synthesizeRun envReady reqBadLanguage =
      (.httpError 500 "400: Language xx not supported", []) := by
  decide

/-- The forward pass of the shipped model always raises: the encoder output
has 512 features while the language embedding has 256, which do not
broadcast. -/
theorem ttsForward_raises :
    ttsForward theModelConfig (1, 150) =
      .error (.other ("The size of tensor a (512) must match the size of " ++
        "tensor b (256) at non-singleton dimension 2")) := by
  rfl

/-- The two try-blocks compute the same value on every environment and
request: their validation chains are identical, and after validation both
raise the same broadcast `RuntimeError`; the branches in which their code
differs (filename tag, success message) are never reached. -/
theorem bodies_eq (env : Env) (req : TTSRequest) :
    synthesizeBody env req = getInferenceBody env req := by
  by_cases h1 : req.language ∈ LANGUAGES.map Prod.fst
  · by_cases h2 : req.accent_id < 0 ∨ 5 ≤ req.accent_id
    · simp [synthesizeBody, getInferenceBody, h1, h2]
    · by_cases h3 : req.style_id < 0 ∨ 3 ≤ req.style_id
      · simp [synthesizeBody, getInferenceBody, h1, h2, h3]
      · simp [synthesizeBody, getInferenceBody, h1, h2, h3, ttsForward_raises]
  · simp [synthesizeBody, getInferenceBody, h1]

/-! ## The claims -/

/-- C1: the claim says an unsupported language code is rejected with HTTP
400 while the model is loaded; the code actually raises the 400
`HTTPException` inside the `try:` block, where `except Exception as e`
catches it and re-raises `HTTPException(500, str(e))`, so the client
receives HTTP 500 (the repository's own test,
`test_api.py::test_invalid_language`, asserts 400 and fails).  This theorem
evaluates both endpoints at the spec's own invalid-language example. -/
theorem c1_invalid_language_yields_500 :
    synthesizeRun envReady reqBadLanguage =
      (.httpError 500 "400: Language xx not supported", []) ∧
    getInferenceRun envReady reqBadLanguage =
      (.httpError 500 "400: Language xx not supported", []) := by
  decide

/-- C2: the claim says an out-of-range `accent_id` or `style_id` is rejected
with HTTP 400; as in C1 the 400 raised inside the `try:` block is demoted to
HTTP 500 by the catch-all `except Exception`.  Evaluated at the spec's
`accent_id = 7` example and at `style_id = 5`, on both endpoints. -/
theorem c2_out_of_range_ids_yield_500 :
    synthesizeRun envReady reqBadAccent =
      (.httpError 500 "400: accent_id must be 0-4", []) ∧
    getInferenceRun envReady reqBadAccent =
      (.httpError 500 "400: accent_id must be 0-4", []) ∧
    synthesizeRun envReady reqBadStyle =
      (.httpError 500 "400: style_id must be 0-2", []) ∧
    getInferenceRun envReady reqBadStyle =
      (.httpError 500 "400: style_id must be 0-2", []) := by
  decide

/-- C5: with `model_loaded` false, both POST endpoints answer
`503 "Model not loaded"` for every request body, and no file is written
(the 503 is raised before the `try:` block, so nothing else runs). -/
theorem c5_model_not_loaded_503 (env : Env) (req : TTSRequest)
    (h : env.model_loaded = false) :
    synthesizeRun env req = (.httpError 503 "Model not loaded", []) ∧
    getInferenceRun env req = (.httpError 503 "Model not loaded", []) := by
  simp [synthesizeRun, getInferenceRun, h]

theorem c5_model_not_loaded_503_witness :
    synthesizeRun envNotLoaded reqValid = (.httpError 503 "Model not loaded", []) ∧
    getInferenceRun envNotLoaded reqValid = (.httpError 503 "Model not loaded", []) :=
  c5_model_not_loaded_503 envNotLoaded reqValid rfl

/-- C6: any exception raised inside the `try:` block of either endpoint —
the validation `HTTPException`s as well as unexpected failures such as the
broadcast `RuntimeError` that every valid request raises in the model
forward — is answered as HTTP 500 whose detail is `str(e)`, the raw text
of the exception, with no file recorded as written. -/
theorem c6_exception_becomes_500_raw_text (env : Env) (req : TTSRequest)
    (e : Exc) (hm : env.model_loaded = true) :
    (synthesizeBody env req = .error e →
      synthesizeRun env req = (.httpError 500 (strOfExc e), [])) ∧
    (getInferenceBody env req = .error e →
      getInferenceRun env req = (.httpError 500 (strOfExc e), [])) := by
  constructor <;> intro h <;>
    simp [synthesizeRun, getInferenceRun, hm, h, wrapTry]

theorem c6_exception_becomes_500_raw_text_witness :
    synthesizeRun envReady reqTamil =
      (.httpError 500 ("The size of tensor a (512) must match the size of " ++
        "tensor b (256) at non-singleton dimension 2"), []) :=
  (c6_exception_becomes_500_raw_text envReady reqTamil
    (.other ("The size of tensor a (512) must match the size of " ++
      "tensor b (256) at non-singleton dimension 2")) rfl).1 rfl

/-- C3: the claim presumes that valid requests complete successfully and
then return duration `(150 * 256) / 22050` s.  In the program no synthesis
request ever completes: `MultilingualTTS.forward` raises a `RuntimeError`
on every call, because `encoder_output + lang_emb` adds a `(1, 150, 512)`
tensor to a `(1, 1, 256)` one (`nn.Linear(hidden_dim * 2, hidden_dim)`
yields 512 features while `language_embedding` yields 256), which do not
broadcast.  Both endpoints answer 500 carrying the raw RuntimeError text at
a valid request, no file is written and no duration is produced —
contradicting the spec's own example (valid POST → 200, duration ≈ 1.74 s)
and the repository's tests `test_synthesize` / `test_inference`, which
expect 200. -/
theorem c3_valid_request_raises_500 :
    synthesizeRun envReady reqValid =
      (.httpError 500 ("The size of tensor a (512) must match the size of " ++
        "tensor b (256) at non-singleton dimension 2"), []) ∧
    getInferenceRun envReady reqValid =
      (.httpError 500 ("The size of tensor a (512) must match the size of " ++
        "tensor b (256) at non-singleton dimension 2"), []) := by
  decide

/-- C9: the claim describes successful `/synthesize` responses; no request
ever succeeds.  At the spec's own example request (`नमस्ते दुनिया`, `hi`,
accent 0, style 0, model loaded) the forward pass raises the broadcast
`RuntimeError`, the endpoint answers 500 with its raw text, nothing is
echoed and no artifact is written. -/
theorem c9_success_unreachable_500 :
    synthesizeRun envReady reqHindi =
      (.httpError 500 ("The size of tensor a (512) must match the size of " ++
        "tensor b (256) at non-singleton dimension 2"), []) := by
  decide

/-- C8: `GET /audio/{filename}` answers 404 exactly when no file of that
name exists under `outputs/`, and otherwise streams that file back with
media type `audio/wav`. -/
theorem c8_get_audio_lookup (fs : List Artifact) (filename : String) :
    ((∀ a ∈ fs, a.filename ≠ filename) →
      getAudioRun fs filename = .httpError 404 "Audio file not found") ∧
    ((∃ a ∈ fs, a.filename = filename) →
      ∃ a, a ∈ fs ∧ a.filename = filename ∧
        getAudioRun fs filename = .fileResponse a "audio/wav") := by
  constructor
  · intro h
    have hn : fs.find? (fun a => a.filename == filename) = none := by
      rw [List.find?_eq_none]
      intro a ha
      simpa using h a ha
    simp [getAudioRun, hn]
  · rintro ⟨a, ha, hname⟩
    have hs : (fs.find? (fun a => a.filename == filename)).isSome := by
      rw [List.find?_isSome]
      exact ⟨a, ha, by simpa using hname⟩
    obtain ⟨b, hb⟩ := Option.isSome_iff_exists.mp hs
    refine ⟨b, List.mem_of_find?_eq_some hb, ?_, ?_⟩
    · simpa using List.find?_some hb
    · simp [getAudioRun, hb]

theorem c8_get_audio_lookup_witness :
    getAudioRun [artSample] "missing.wav" =
      .httpError 404 "Audio file not found" ∧
    ∃ a, a ∈ [artSample] ∧ a.filename = "tts_20250101_120000.wav" ∧
      getAudioRun [artSample] "tts_20250101_120000.wav" =
        .fileResponse a "audio/wav" :=
  ⟨(c8_get_audio_lookup [artSample] "missing.wav").1 (by decide),
   (c8_get_audio_lookup [artSample] "tts_20250101_120000.wav").2
     ⟨artSample, by decide, by decide⟩⟩

/-- C10: `/synthesize` and `/Get_Inference` compute identical results on
every environment and request: identical validation, identical error
responses (the broadcast `RuntimeError` every valid request hits included)
and identical 503 handling.  The only places where their duplicated source
texts differ — the artifact filename tag (`tts_` versus `inference_`) and
the success message — sit in the success branch after the model call, which
is unreachable because the forward pass always raises; so the differences
the claim allows for never materialise and the endpoints agree exactly. -/
theorem c10_endpoints_agree (env : Env) (req : TTSRequest) :
    synthesizeRun env req = getInferenceRun env req := by
  unfold synthesizeRun getInferenceRun
  rw [bodies_eq]

/-! ## Lemmas about the normalizer -/

theorem pySplit_cons (c : Char) (cs : List Char) :
    pySplit (c :: cs) =
      if pyIsSpace c then pySplit cs
      else
        match cs with
        | [] => [[c]]
        | d :: _ =>
          if pyIsSpace d then
            [c] :: pySplit cs
          else
            match pySplit cs with
            | [] => [[c]]
            | w :: ws => (c :: w) :: ws :=
  rfl

theorem pySplit_cons_space {c : Char} (cs : List Char) (h : pyIsSpace c = true) :
    pySplit (c :: cs) = pySplit cs := by
  simp [pySplit_cons, h]

theorem pySplit_singleton {c : Char} (h : pyIsSpace c = false) :
    pySplit [c] = [[c]] := by
  simp [pySplit_cons, h]

theorem pySplit_cons_cons_space {c d : Char} (ds : List Char)
    (hc : pyIsSpace c = false) (hd : pyIsSpace d = true) :
    pySplit (c :: d :: ds) = [c] :: pySplit (d :: ds) := by
  simp [pySplit_cons, hc, hd]

theorem pySplit_cons_cons_nonspace {c d : Char} (ds : List Char)
    (hc : pyIsSpace c = false) (hd : pyIsSpace d = false) :
    pySplit (c :: d :: ds) =
      match pySplit (d :: ds) with
      | [] => [[c]]
      | w :: ws => (c :: w) :: ws := by
  simp [pySplit_cons, hc, hd]

theorem joinWithSpace_cons2 (w v : List Char) (rest : List (List Char)) :
    joinWithSpace (w :: v :: rest) = w ++ ' ' :: joinWithSpace (v :: rest) :=
  rfl

/-- Every word produced by `pySplit` is nonempty and made of non-whitespace
characters of the input. -/
theorem pySplit_words (s : List Char) :
    ∀ w ∈ pySplit s, w ≠ [] ∧ ∀ c ∈ w, c ∈ s ∧ pyIsSpace c = false := by
  induction s with
  | nil => simp [pySplit]
  | cons c cs ih =>
    intro w hw
    rcases hc : pyIsSpace c with _ | _
    · cases cs with
      | nil =>
        rw [pySplit_singleton hc] at hw
        simp only [List.mem_singleton] at hw
        subst hw
        exact ⟨by simp, fun c' hc' => by
          simp only [List.mem_singleton] at hc'
          subst hc'
          exact ⟨List.mem_cons_self c' _, hc⟩⟩
      | cons d ds =>
        rcases hd : pyIsSpace d with _ | _
        · rw [pySplit_cons_cons_nonspace ds hc hd] at hw
          rcases hsp : pySplit (d :: ds) with _ | ⟨w0, ws0⟩
          · rw [hsp] at hw
            simp only [List.mem_singleton] at hw
            subst hw
            exact ⟨by simp, fun c' hc' => by
              simp only [List.mem_singleton] at hc'
              subst hc'
              exact ⟨List.mem_cons_self c' _, hc⟩⟩
          · rw [hsp] at hw
            rcases List.mem_cons.mp hw with rfl | hw
            · refine ⟨by simp, ?_⟩
              intro c' hc'
              rcases List.mem_cons.mp hc' with rfl | hc'
              · exact ⟨List.mem_cons_self c' _, hc⟩
              · obtain ⟨-, h2⟩ := ih w0 (by rw [hsp]; exact List.mem_cons_self w0 ws0)
                exact ⟨List.mem_cons_of_mem c (h2 c' hc').1, (h2 c' hc').2⟩
            · obtain ⟨h1, h2⟩ := ih w (by rw [hsp]; exact List.mem_cons_of_mem w0 hw)
              exact ⟨h1, fun c' hc' =>
                ⟨List.mem_cons_of_mem c (h2 c' hc').1, (h2 c' hc').2⟩⟩
        · rw [pySplit_cons_cons_space ds hc hd] at hw
          rcases List.mem_cons.mp hw with rfl | hw
          · exact ⟨by simp, fun c' hc' => by
              simp only [List.mem_singleton] at hc'
              subst hc'
              exact ⟨List.mem_cons_self c' _, hc⟩⟩
          · obtain ⟨h1, h2⟩ := ih w hw
            exact ⟨h1, fun c' hc' =>
              ⟨List.mem_cons_of_mem c (h2 c' hc').1, (h2 c' hc').2⟩⟩
    · rw [pySplit_cons_space cs hc] at hw
      obtain ⟨h1, h2⟩ := ih w hw
      exact ⟨h1, fun c' hc' =>
        ⟨List.mem_cons_of_mem c (h2 c' hc').1, (h2 c' hc').2⟩⟩

/-- Every character of `' '.join ws` is a space or a character of a word. -/
theorem mem_joinWithSpace (ws : List (List Char)) (c : Char)
    (h : c ∈ joinWithSpace ws) : c = ' ' ∨ ∃ w ∈ ws, c ∈ w := by
  induction ws with
  | nil => simp [joinWithSpace] at h
  | cons w ws ih =>
    cases ws with
    | nil =>
      right
      exact ⟨w, List.mem_cons_self w [], by simpa [joinWithSpace] using h⟩
    | cons v rest =>
      rw [joinWithSpace_cons2] at h
      rcases List.mem_append.mp h with h | h
      · exact Or.inr ⟨w, List.mem_cons_self w _, h⟩
      · rcases List.mem_cons.mp h with rfl | h
        · exact Or.inl rfl
        · rcases ih h with h | ⟨w', hw', hc'⟩
          · exact Or.inl h
          · exact Or.inr ⟨w', List.mem_cons_of_mem w hw', hc'⟩

/-- `pySplit` of a single all-nonspace word. -/
theorem pySplit_all_nonspace (w : List Char) (hne : w ≠ [])
    (h : ∀ c ∈ w, pyIsSpace c = false) : pySplit w = [w] := by
  induction w with
  | nil => exact absurd rfl hne
  | cons c cs ih =>
    have hc : pyIsSpace c = false := h c (List.mem_cons_self c cs)
    cases cs with
    | nil => exact pySplit_singleton hc
    | cons d ds =>
      have hd : pyIsSpace d = false := h d (by simp)
      rw [pySplit_cons_cons_nonspace ds hc hd,
        ih (by simp) (fun c' hc' => h c' (List.mem_cons_of_mem c hc'))]

/-- `pySplit` of a word, a space, then the rest. -/
theorem pySplit_word_append (w t : List Char) (hne : w ≠ [])
    (h : ∀ c ∈ w, pyIsSpace c = false) :
    pySplit (w ++ ' ' :: t) = w :: pySplit t := by
  induction w with
  | nil => exact absurd rfl hne
  | cons c cs ih =>
    have hc : pyIsSpace c = false := h c (List.mem_cons_self c cs)
    cases cs with
    | nil =>
      have hsp : pySplit (' ' :: t) = pySplit t :=
        pySplit_cons_space t (by decide)
      simp only [List.singleton_append]
      rw [pySplit_cons_cons_space t hc (by decide), hsp]
    | cons d ds =>
      have hd : pyIsSpace d = false := h d (by simp)
      have ihr := ih (by simp) (fun c' hc' => h c' (List.mem_cons_of_mem c hc'))
      simp only [List.cons_append] at ihr ⊢
      rw [pySplit_cons_cons_nonspace _ hc hd, ihr]

/-- `pySplit` is a retraction of `' '.join` on lists of nonempty
all-nonspace words. -/
theorem pySplit_joinWithSpace (ws : List (List Char))
    (h : ∀ w ∈ ws, w ≠ [] ∧ ∀ c ∈ w, pyIsSpace c = false) :
    pySplit (joinWithSpace ws) = ws := by
  induction ws with
  | nil => simp [joinWithSpace, pySplit]
  | cons w ws ih =>
    cases ws with
    | nil =>
      obtain ⟨h1, h2⟩ := h w (List.mem_cons_self w [])
      rw [joinWithSpace, pySplit_all_nonspace w h1 h2]
    | cons v rest =>
      obtain ⟨h1, h2⟩ := h w (List.mem_cons_self w _)
      rw [joinWithSpace_cons2, pySplit_word_append w _ h1 h2,
        ih (fun w' hw' => h w' (List.mem_cons_of_mem w hw'))]

theorem pySplit_map (f : Char → Char) (hf : ∀ c, pyIsSpace (f c) = pyIsSpace c)
    (s : List Char) : pySplit (s.map f) = (pySplit s).map (List.map f) := by
  induction s with
  | nil => simp [pySplit]
  | cons c cs ih =>
    rcases hc : pyIsSpace c with _ | _
    · have hfc : pyIsSpace (f c) = false := by rw [hf]; exact hc
      cases cs with
      | nil =>
        simp only [List.map_cons, List.map_nil]
        rw [pySplit_singleton hc, pySplit_singleton hfc]
        simp
      | cons d ds =>
        have ih' : pySplit (f d :: List.map f ds) =
            List.map (List.map f) (pySplit (d :: ds)) := by
          simpa using ih
        rcases hd : pyIsSpace d with _ | _
        · have hfd : pyIsSpace (f d) = false := by rw [hf]; exact hd
          simp only [List.map_cons]
          rw [pySplit_cons_cons_nonspace (List.map f ds) hfc hfd,
            pySplit_cons_cons_nonspace ds hc hd, ih']
          rcases hsp : pySplit (d :: ds) with _ | ⟨w0, ws0⟩ <;> simp
        · have hfd : pyIsSpace (f d) = true := by rw [hf]; exact hd
          simp only [List.map_cons]
          rw [pySplit_cons_cons_space (List.map f ds) hfc hfd,
            pySplit_cons_cons_space ds hc hd, List.map_cons, ih']
          simp
    · have hfc : pyIsSpace (f c) = true := by rw [hf]; exact hc
      simp only [List.map_cons]
      rw [pySplit_cons_space _ hfc, pySplit_cons_space _ hc]
      simpa using ih

theorem joinWithSpace_map (f : Char → Char) (hsp : f ' ' = ' ')
    (ws : List (List Char)) :
    joinWithSpace (ws.map (List.map f)) = (joinWithSpace ws).map f := by
  induction ws with
  | nil => simp [joinWithSpace]
  | cons w ws ih =>
    cases ws with
    | nil => simp [joinWithSpace]
    | cons v rest =>
      have ih' : joinWithSpace (List.map f v :: List.map (List.map f) rest) =
          List.map f (joinWithSpace (v :: rest)) := by
        simpa using ih
      simp only [List.map_cons]
      rw [joinWithSpace_cons2, joinWithSpace_cons2, ih']
      simp [hsp]

theorem toNat_ofNat_ascii (k : Nat) (h1 : 97 ≤ k) (h2 : k ≤ 122) :
    (Char.ofNat k).toNat = k := by
  interval_cases k <;> decide

theorem pyIsSpace_ofNat_ascii (k : Nat) (h1 : 97 ≤ k) (h2 : k ≤ 122) :
    pyIsSpace (Char.ofNat k) = false := by
  interval_cases k <;> decide

theorem keepChar_ofNat_ascii (k : Nat) (h1 : 97 ≤ k) (h2 : k ≤ 122) :
    keepChar (Char.ofNat k) = true := by
  interval_cases k <;> decide

theorem pyIsSpace_eq_false_of_upper (c : Char)
    (h1 : 65 ≤ c.toNat) (h2 : c.toNat ≤ 90) : pyIsSpace c = false := by
  have hs : c ≠ ' ' := fun e => (by decide : ¬ 65 ≤ Char.toNat ' ') (e ▸ h1)
  have ht : c ≠ '\t' := fun e => (by decide : ¬ 65 ≤ Char.toNat '\t') (e ▸ h1)
  have hr : c ≠ '\x0d' := fun e => (by decide : ¬ 65 ≤ Char.toNat '\x0d') (e ▸ h1)
  have hn : c ≠ '\n' := fun e => (by decide : ¬ 65 ≤ Char.toNat '\n') (e ▸ h1)
  simp [pyIsSpace, Char.isWhitespace, hs, ht, hr, hn]

theorem pyLower_isSpace (c : Char) : pyIsSpace (pyLower c) = pyIsSpace c := by
  unfold pyLower
  split
  case isTrue h =>
    rw [pyIsSpace_ofNat_ascii _ (by omega) (by omega),
      pyIsSpace_eq_false_of_upper c h.1 h.2]
  case isFalse h => rfl

theorem pyLower_pyLower (c : Char) : pyLower (pyLower c) = pyLower c := by
  unfold pyLower
  split
  case isTrue h =>
    rw [if_neg]
    rw [toNat_ofNat_ascii _ (by omega) (by omega)]
    omega
  case isFalse h => rfl

theorem keepChar_pyLower (c : Char) (h : keepChar c = true) :
    keepChar (pyLower c) = true := by
  unfold pyLower
  split
  case isTrue hk => exact keepChar_ofNat_ascii _ (by omega) (by omega)
  case isFalse hk => exact h

theorem pyCollapse_idem (s : List Char) :
    pyCollapse (pyCollapse s) = pyCollapse s := by
  show joinWithSpace (pySplit (joinWithSpace (pySplit s))) = joinWithSpace (pySplit s)
  rw [pySplit_joinWithSpace (pySplit s) (fun w hw =>
    ⟨(pySplit_words s w hw).1,
     fun c hc => ((pySplit_words s w hw).2 c hc).2⟩)]

theorem pyCollapse_map (f : Char → Char) (hf : ∀ c, pyIsSpace (f c) = pyIsSpace c)
    (hsp : f ' ' = ' ') (s : List Char) :
    pyCollapse (s.map f) = (pyCollapse s).map f := by
  show joinWithSpace (pySplit (s.map f)) = (joinWithSpace (pySplit s)).map f
  rw [pySplit_map f hf, joinWithSpace_map f hsp]

theorem normalizeList_idem (s : List Char)
    (h : ∀ c ∈ s, keepChar c = true ∨ pyIsSpace c = true) :
    normalizeList (normalizeList s) = normalizeList s := by
  have hkeep1 : ∀ c ∈ pyCollapse s, keepChar c = true := by
    intro c hc
    rcases mem_joinWithSpace _ c hc with rfl | ⟨w, hw, hcw⟩
    · decide
    · obtain ⟨-, h2⟩ := pySplit_words s w hw
      obtain ⟨hcs, hcsp⟩ := h2 c hcw
      rcases h c hcs with hk | hk
      · exact hk
      · rw [hk] at hcsp; cases hcsp
  have hfil1 : (pyCollapse s).filter keepChar = pyCollapse s :=
    List.filter_eq_self.mpr hkeep1
  have hn1 : normalizeList s = (pyCollapse s).map pyLower := by
    rw [normalizeList, hfil1]
  have hcmap : pyCollapse ((pyCollapse s).map pyLower) =
      (pyCollapse s).map pyLower := by
    rw [pyCollapse_map pyLower pyLower_isSpace (by decide), pyCollapse_idem]
  have hkeep2 : ∀ x ∈ (pyCollapse s).map pyLower, keepChar x = true := by
    intro x hx
    obtain ⟨c, hc, rfl⟩ := List.mem_map.mp hx
    exact keepChar_pyLower c (hkeep1 c hc)
  rw [hn1, normalizeList, hcmap, List.filter_eq_self.mpr hkeep2, List.map_map]
  rw [show pyLower ∘ pyLower = pyLower from funext pyLower_pyLower]

theorem lastIsSpace_cons_cons (c d : Char) (ds : List Char) :
    lastIsSpace (c :: d :: ds) = lastIsSpace (d :: ds) :=
  rfl

theorem collapseRuns_space_nil {c : Char} (hc : pyIsSpace c = true) :
    collapseRuns [c] = [' '] := by
  simp [collapseRuns, hc]

theorem collapseRuns_space_space {c d : Char} (ds : List Char)
    (hc : pyIsSpace c = true) (hd : pyIsSpace d = true) :
    collapseRuns (c :: d :: ds) = collapseRuns (d :: ds) := by
  simp [collapseRuns, hc, hd]

theorem collapseRuns_space_nonspace {c d : Char} (ds : List Char)
    (hc : pyIsSpace c = true) (hd : pyIsSpace d = false) :
    collapseRuns (c :: d :: ds) = ' ' :: collapseRuns (d :: ds) := by
  simp [collapseRuns, hc, hd]

theorem collapseRuns_nonspace {c : Char} (cs : List Char)
    (hc : pyIsSpace c = false) :
    collapseRuns (c :: cs) = c :: collapseRuns cs := by
  simp [collapseRuns, hc]

theorem pySplit_ne_nil {d : Char} {ds : List Char} (hd : pyIsSpace d = false) :
    pySplit (d :: ds) ≠ [] := by
  cases ds with
  | nil => rw [pySplit_singleton hd]; simp
  | cons e es =>
    rcases he : pyIsSpace e with _ | _
    · rw [pySplit_cons_cons_nonspace es hd he]
      rcases pySplit (e :: es) with _ | ⟨w, ws⟩ <;> simp
    · rw [pySplit_cons_cons_space es hd he]; simp

theorem all_space_of_pySplit_eq_nil (t : List Char) (h : pySplit t = []) :
    ∀ c ∈ t, pyIsSpace c = true := by
  induction t with
  | nil => simp
  | cons c cs ih =>
    rcases hc : pyIsSpace c with _ | _
    · exact absurd h (pySplit_ne_nil hc)
    · rw [pySplit_cons_space cs hc] at h
      intro x hx
      rcases List.mem_cons.mp hx with rfl | hx
      · exact hc
      · exact ih h x hx

theorem lastIsSpace_of_all (t : List Char) (hne : t ≠ [])
    (h : ∀ c ∈ t, pyIsSpace c = true) : lastIsSpace t = true := by
  induction t with
  | nil => exact absurd rfl hne
  | cons c cs ih =>
    cases cs with
    | nil => exact h c (by simp)
    | cons d ds =>
      rw [lastIsSpace_cons_cons]
      exact ih (by simp) (fun x hx => h x (List.mem_cons_of_mem c hx))

theorem joinWithSpace_cons_head (c : Char) (w : List Char)
    (ws : List (List Char)) :
    joinWithSpace ((c :: w) :: ws) = c :: joinWithSpace (w :: ws) := by
  cases ws <;> rfl

/-- The single-pass run-collapse differs from `' '.join(s.split())` only by
a single leading and a single trailing space, kept when the input starts
resp. ends with whitespace. -/
theorem collapseRuns_structure (s : List Char) :
    (pySplit s = [] → collapseRuns s = if s = [] then [] else [' ']) ∧
    (pySplit s ≠ [] →
      collapseRuns s =
        (if headIsSpace s then [' '] else []) ++
          joinWithSpace (pySplit s) ++
          (if lastIsSpace s then [' '] else [])) := by
  induction s with
  | nil => exact ⟨fun _ => rfl, fun h => absurd rfl h⟩
  | cons c cs ih =>
    obtain ⟨ih1, ih2⟩ := ih
    rcases hc : pyIsSpace c with _ | _
    · -- c is not whitespace
      constructor
      · intro h
        exact absurd h (pySplit_ne_nil hc)
      · intro h
        rw [collapseRuns_nonspace cs hc]
        cases cs with
        | nil =>
          rw [pySplit_singleton hc]
          simp [headIsSpace, lastIsSpace, hc, joinWithSpace, collapseRuns]
        | cons d ds =>
          rcases hd : pyIsSpace d with _ | _
          · -- d is not whitespace either: c extends the first word
            obtain ⟨w0, ws0, hsp⟩ : ∃ w0 ws0, pySplit (d :: ds) = w0 :: ws0 := by
              rcases hx : pySplit (d :: ds) with _ | ⟨w0, ws0⟩
              · exact absurd hx (pySplit_ne_nil hd)
              · exact ⟨w0, ws0, rfl⟩
            have hps : pySplit (c :: d :: ds) = (c :: w0) :: ws0 := by
              rw [pySplit_cons_cons_nonspace ds hc hd, hsp]
            have ihr := ih2 (by rw [hsp]; simp)
            rw [hps, ihr, hsp]
            simp [headIsSpace, lastIsSpace_cons_cons, hc, hd,
              joinWithSpace_cons_head]
          · -- d is whitespace: [c] is a complete word
            have hps : pySplit (c :: d :: ds) = [c] :: pySplit (d :: ds) :=
              pySplit_cons_cons_space ds hc hd
            rw [hps]
            rcases hx : pySplit (d :: ds) with _ | ⟨w0, ws0⟩
            · have hall := all_space_of_pySplit_eq_nil _ hx
              have hlast : lastIsSpace (c :: d :: ds) = true := by
                rw [lastIsSpace_cons_cons]
                exact lastIsSpace_of_all _ (by simp) hall
              have hcr : collapseRuns (d :: ds) = [' '] := by
                simpa using ih1 hx
              rw [hcr, hlast]
              simp [headIsSpace, hc, joinWithSpace]
            · have ihr := ih2 (by rw [hx]; simp)
              rw [ihr, hx]
              simp [headIsSpace, hd, hc, lastIsSpace_cons_cons,
                joinWithSpace_cons2, joinWithSpace_cons_head]
    · -- c is whitespace
      cases cs with
      | nil =>
        constructor
        · intro h
          rw [collapseRuns_space_nil hc]
          simp
        · intro h
          have : pySplit [c] = [] := by
            rw [pySplit_cons_space [] hc]; rfl
          exact absurd this h
      | cons d ds =>
        have hps : pySplit (c :: d :: ds) = pySplit (d :: ds) :=
          pySplit_cons_space _ hc
        rcases hd : pyIsSpace d with _ | _
        · -- run of length one: keep a single space
          constructor
          · intro h
            rw [hps] at h
            exact absurd h (pySplit_ne_nil hd)
          · intro h
            rw [collapseRuns_space_nonspace ds hc hd, hps]
            have ihr := ih2 (pySplit_ne_nil hd)
            rw [ihr]
            simp [headIsSpace, hc, hd, lastIsSpace_cons_cons]
        · -- the run continues: drop c
          have hcr : collapseRuns (c :: d :: ds) = collapseRuns (d :: ds) :=
            collapseRuns_space_space ds hc hd
          constructor
          · intro h
            rw [hps] at h
            rw [hcr, ih1 h]
            simp
          · intro h
            rw [hps] at h
            rw [hcr, ih2 h, hps]
            simp [headIsSpace, hc, hd, lastIsSpace_cons_cons]

theorem joinWords_head (ws : List (List Char))
    (h : ∀ w ∈ ws, w ≠ [] ∧ ∀ c ∈ w, pyIsSpace c = false) (hne : ws ≠ []) :
    ∃ c t, joinWithSpace ws = c :: t ∧ pyIsSpace c = false := by
  cases ws with
  | nil => exact absurd rfl hne
  | cons w ws' =>
    obtain ⟨h1, h2⟩ := h w (List.mem_cons_self w ws')
    obtain ⟨c, w', rfl⟩ := List.exists_cons_of_ne_nil h1
    refine ⟨c, ?_, ?_, h2 c (List.mem_cons_self c w')⟩
    · cases ws' with
      | nil => exact w'
      | cons v rest => exact w' ++ ' ' :: joinWithSpace (v :: rest)
    · cases ws' with
      | nil => rfl
      | cons v rest => rw [joinWithSpace_cons2]; rfl

theorem joinWords_last_rev (ws : List (List Char))
    (h : ∀ w ∈ ws, w ≠ [] ∧ ∀ c ∈ w, pyIsSpace c = false) (hne : ws ≠ []) :
    ∃ c t, (joinWithSpace ws).reverse = c :: t ∧ pyIsSpace c = false := by
  induction ws with
  | nil => exact absurd rfl hne
  | cons w ws' ih =>
    cases ws' with
    | nil =>
      obtain ⟨h1, h2⟩ := h w (List.mem_cons_self w [])
      have hne' : w.reverse ≠ [] := by simpa using h1
      obtain ⟨c, t, ht⟩ := List.exists_cons_of_ne_nil hne'
      refine ⟨c, t, by simpa [joinWithSpace] using ht, ?_⟩
      have : c ∈ w.reverse := by rw [ht]; exact List.mem_cons_self c t
      exact h2 c (List.mem_reverse.mp this)
    | cons v rest =>
      obtain ⟨c, t, ht, hc⟩ :=
        ih (fun w' hw' => h w' (List.mem_cons_of_mem w hw')) (by simp)
      refine ⟨c, t ++ ' ' :: w.reverse, ?_, hc⟩
      rw [joinWithSpace_cons2, List.reverse_append, List.reverse_cons]
      rw [ht]
      simp

theorem trimWs_pad (J : List Char) (b1 b2 : Bool)
    (hhead : ∃ c t, J = c :: t ∧ pyIsSpace c = false)
    (hlast : ∃ c t, J.reverse = c :: t ∧ pyIsSpace c = false) :
    trimWs ((if b1 then [' '] else []) ++ J ++ (if b2 then [' '] else [])) = J := by
  obtain ⟨cH, tH, hJ, hcH⟩ := hhead
  obtain ⟨cL, tL, hJr, hcL⟩ := hlast
  have hdrop : (J ++ (if b2 then [' '] else [])).dropWhile pyIsSpace =
      J ++ (if b2 then [' '] else []) := by
    rw [hJ, List.cons_append, List.dropWhile_cons_of_neg (by simp [hcH])]
  have hrev : (J ++ (if b2 then [' '] else [])).reverse.dropWhile pyIsSpace =
      J.reverse := by
    cases b2
    · rw [show (if false = true then ([' '] : List Char) else []) = [] from rfl,
        List.append_nil, hJr, List.dropWhile_cons_of_neg (by simp [hcL]), ← hJr]
    · rw [show (if true = true then ([' '] : List Char) else []) = [' '] from rfl,
        List.reverse_append,
        show ([' '] : List Char).reverse = [' '] from rfl,
        List.singleton_append, List.dropWhile_cons_of_pos (by decide), hJr,
        List.dropWhile_cons_of_neg (by simp [hcL]), ← hJr]
  unfold trimWs
  cases b1
  · rw [show (if false = true then ([' '] : List Char) else []) = [] from rfl,
      List.nil_append, hdrop, hrev, List.reverse_reverse]
  · rw [show (if true = true then ([' '] : List Char) else []) = [' '] from rfl,
      List.append_assoc, List.singleton_append,
      List.dropWhile_cons_of_pos (by decide), hdrop, hrev,
      List.reverse_reverse]

theorem pyCollapse_eq_trimWs_collapseRuns (s : List Char) :
    pyCollapse s = trimWs (collapseRuns s) := by
  rcases hx : pySplit s with _ | ⟨w0, ws0⟩
  · have h1 := (collapseRuns_structure s).1 hx
    have hpc : pyCollapse s = [] := by rw [pyCollapse, hx]; rfl
    rw [hpc, h1]
    rcases s with _ | ⟨c, cs⟩
    · rfl
    · rw [if_neg (by simp)]
      decide
  · have h2 := (collapseRuns_structure s).2 (by rw [hx]; simp)
    have hwords := pySplit_words s
    rw [hx] at hwords
    have hw : ∀ w ∈ w0 :: ws0, w ≠ [] ∧ ∀ c ∈ w, pyIsSpace c = false :=
      fun w hmem => ⟨(hwords w hmem).1, fun c hc => ((hwords w hmem).2 c hc).2⟩
    rw [pyCollapse, h2, hx]
    exact (trimWs_pad (joinWithSpace (w0 :: ws0)) _ _
      (joinWords_head _ hw (by simp)) (joinWords_last_rev _ hw (by simp))).symm

theorem normalizeList_eq_trimmed_collapse (s : List Char) :
    normalizeList s = ((trimWs (collapseRuns s)).filter keepChar).map pyLower := by
  rw [normalizeList, pyCollapse_eq_trimWs_collapseRuns]


/-- C4: the claim says `normalize` is idempotent on every string; it is not,
because stripping a character can bring two spaces together, which only the
*next* normalization's split/join collapses.  At `"a @ b"`: the first pass
gives `"a  b"` (the `@` is stripped between two kept spaces), the second
gives `"a b"`. -/
theorem c4_normalize_not_idempotent :
    normalize (normalize "a @ b" "hi") "hi" ≠ normalize "a @ b" "hi" := by
  decide

/-- C4 amended: normalization is idempotent on every input whose characters
are all kept (alphanumerics, the punctuation set, space) or whitespace —
that is, whenever nothing is stripped.  The language arguments are
irrelevant either way. -/
theorem c4_normalize_idempotent_on_kept (s lang1 lang2 : String)
    (h : ∀ c ∈ s.data, keepChar c = true ∨ pyIsSpace c = true) :
    normalize (normalize s lang1) lang2 = normalize s lang1 := by
  show (⟨normalizeList (normalize s lang1).data⟩ : String) = ⟨normalizeList s.data⟩
  have hd : (normalize s lang1).data = normalizeList s.data := rfl
  rw [hd, normalizeList_idem s.data h]

theorem c4_normalize_idempotent_on_kept_witness :
    normalize (normalize "  Hello,   WORLD! " "hi") "ta" =
      normalize "  Hello,   WORLD! " "hi" :=
  c4_normalize_idempotent_on_kept "  Hello,   WORLD! " "hi" "ta" (by decide)

/-- C7: the claim's description, read literally ("whitespace runs collapsed
to single spaces" before stripping and lower-casing), keeps a single space
for a leading or trailing run, but the source's `' '.join(text.split())`
deletes those runs: at the one-space input the code returns the empty
string while the described transformation returns `" "`. -/
theorem c7_literal_collapse_counterexample :
    normalize " " "hi" ≠ normalizeClaim7 " " := by
  decide

/-- C7 amended: for every input string and language argument, `normalize`
collapses whitespace runs to single spaces *and removes leading and
trailing whitespace*, then strips characters other than alphanumerics, the
punctuation set and the space, then lower-cases; the language argument has
no effect on the output. -/
theorem c7_normalize_eq_trimmed_spec (text language : String) :
    normalize text language = normalizeClaim7Trimmed text :=
  congrArg String.mk (normalizeList_eq_trimmed_collapse text.data)

end VoiceForAll
